import Mathlib

/-!
# Verification of the bookmark extension core (src/extension.js)

Shallow embedding of the bookmark / group data model and of the command
handlers of `src/extension.js` (the primary revision, lines 1-724).

Conventions of the embedding:
* A JS object used as a string-keyed map (`bookmarkGroups`) is embedded as an
  association list in insertion order, with `Option String` values so that a
  key holding the JS value `undefined` (present key, falsy value) is
  distinguishable from an absent key, as `Object.keys` distinguishes them.
* JS string truthiness is `jsTruthy`: a present, non-empty string.
* `Array.prototype.findIndex` is embedded JS-style as `jsFindIndex`,
  returning `-1` when no element matches.
* `localeCompare` on file URIs is embedded as lexicographic string order.
* The JS `%` operator on integers is `Int.tmod` (sign of the dividend).
* Randomly generated colors and user-interaction results (input boxes,
  quick picks) are parameters of the embedded handlers.
-/

/-- A bookmark record, from the `@typedef` in `src/extension.js`:
`{ uri: string, line: number, content: string, group: string }`. -/
structure Bookmark where
  uri : String
  line : Int
  content : String
  group : String
deriving DecidableEq, Repr

/-- The `bookmarkGroups` JS object: association list of
(group name, stored color) in insertion order; `none` is JS `undefined`. -/
abbrev GroupMap := List (String × Option String)

/-- Embeds `Object.keys(m)`: keys in insertion order. -/
def objKeys (m : GroupMap) : List String := m.map Prod.fst

/-- Embeds property access `m[k]`: the stored value of the first entry with
key `k` (`none` both for an absent key and for a stored `undefined`). -/
def objGet (m : GroupMap) (k : String) : Option String :=
  match m.find? (fun e => e.1 == k) with
  | some e => e.2
  | none => none

/-- Embeds the key-presence test `Object.keys(m).includes(k)`. -/
def objHasKey (m : GroupMap) (k : String) : Bool :=
  m.any (fun e => e.1 == k)

/-- Embeds `delete m[k]`. -/
def objDelete (m : GroupMap) (k : String) : GroupMap :=
  m.filter (fun e => e.1 != k)

/-- Embeds the assignment `m[k] = v`: updates the entry in place when the key
is present (insertion order kept), otherwise appends a new entry. -/
def objSet (m : GroupMap) (k : String) (v : Option String) : GroupMap :=
  if objHasKey m k then m.map (fun e => if e.1 == k then (e.1, v) else e)
  else m ++ [(k, v)]

/-- JS truthiness of a possibly-undefined string value. -/
def jsTruthy (v : Option String) : Bool :=
  match v with
  | some s => !s.isEmpty
  | none => false

/-- Embeds `Array.prototype.findIndex`: index of the first match, `-1` if none. -/
def jsFindIndex (p : α → Bool) : List α → Int
  | [] => -1
  | x :: xs =>
    if p x then 0
    else
      let r := jsFindIndex p xs
      if r < 0 then -1 else r + 1

/-- Replaces `l[i]` by `f(l[i])` at a natural index (out of range: unchanged). -/
def listModify (f : α → α) : List α → Nat → List α
  | [], _ => []
  | x :: xs, 0 => f x :: xs
  | x :: xs, n + 1 => x :: listModify f xs n

/-- The workspace state the handlers read and write: the `bookmarks` list,
the `bookmarkGroups` object and the `activeBookmarkGroup` name. -/
structure St where
  bookmarks : List Bookmark
  groups : GroupMap
  activeGroup : String
deriving DecidableEq, Repr

/-- The matching predicate used by toggle / remove / move:
`b.uri === uri && b.line === line && b.group === group`. -/
def bmMatches (b : Bookmark) (uri : String) (line : Int) (group : String) : Bool :=
  b.uri == uri && b.line == line && b.group == group

/-- The identity key of a bookmark: `(uri, line, group)`. -/
def bmKey (b : Bookmark) : String × Int × String := (b.uri, b.line, b.group)

/-- Keys of a bookmark list. -/
def keysOf (bms : List Bookmark) : List (String × Int × String) := bms.map bmKey

/-- The find-then-splice-or-push core of `bm.toggleBookmark`
(`src/extension.js` lines 407-419), over a bookmark list, for the key
`(uri, line, group)` and snapshot `content`. -/
def toggleCore (uri : String) (line : Int) (content group : String)
    (bms : List Bookmark) : List Bookmark :=
  let idx := jsFindIndex (fun b => bmMatches b uri line group) bms
  if 0 ≤ idx then bms.eraseIdx idx.toNat
  else bms ++ [⟨uri, line, content, group⟩]

/-- Embeds `bm.toggleBookmark` (lines 388-425): first the active-group fix-up of
lines 395-405, then toggle at the cursor key. `defaultColors` is the
configured default color list; `uri`, `line`, `content` come from the
active editor. -/
def toggleBookmark (defaultColors : List String) (uri : String) (line : Int)
    (content : String) (st : St) : St :=
  let fixed :=
    if jsTruthy (objGet st.groups st.activeGroup) then (st.groups, st.activeGroup)
    else
      let names := objKeys st.groups
      let groups2 :=
        if names.isEmpty then objSet st.groups "Default" defaultColors.head?
        else st.groups
      let newActive :=
        match names with
        | [] => "Default"
        | n :: _ => if n.isEmpty then "Default" else n
      (groups2, newActive)
  { bookmarks := toggleCore uri line content fixed.2 st.bookmarks
    groups := fixed.1
    activeGroup := fixed.2 }

/-- Embeds `bm.removeBookmark` (lines 465-482): remove the bookmark matching the
item's `(uri, line, group)` key, if present. -/
def removeBookmark (uri : String) (line : Int) (group : String) (st : St) : St :=
  let idx := jsFindIndex (fun b => bmMatches b uri line group) st.bookmarks
  if 0 ≤ idx then { st with bookmarks := st.bookmarks.eraseIdx idx.toNat }
  else st

/-- Embeds `bm.moveBookmarkToGroup` (lines 484-506): `target` is the quick-pick
choice among the groups other than the item's group; the matched bookmark's
`group` field is overwritten in place. -/
def moveBookmarkToGroup (uri : String) (line : Int) (group target : String)
    (st : St) : St :=
  let others := (objKeys st.groups).filter (fun g => g != group)
  if others.isEmpty then st
  else if target.isEmpty then st
  else
    let idx := jsFindIndex (fun b => bmMatches b uri line group) st.bookmarks
    if 0 ≤ idx then
      { st with
        bookmarks :=
          listModify (fun b => { b with group := target }) st.bookmarks idx.toNat }
    else st

/-- Embeds `bm.createGroup` (lines 519-546): `name` is the input-box result and
`color` the freshly generated random color. -/
def createGroup (name color : String) (st : St) : St :=
  if name.isEmpty then st
  else if jsTruthy (objGet st.groups name) then st
  else
    { st with
      groups := objSet st.groups name (some color)
      activeGroup := name }

/-- Embeds `bm.renameGroup` (lines 548-577): `old` is the item's group, `newName`
the input-box result. Note the source never checks that `old` is a key of
the group object. -/
def renameGroup (old newName : String) (st : St) : St :=
  if old.isEmpty then st
  else if newName.isEmpty || newName == old then st
  else if jsTruthy (objGet st.groups newName) then st
  else
    let color := objGet st.groups old
    let groups2 := objSet (objDelete st.groups old) newName color
    let bms := st.bookmarks.map (fun b =>
      if b.group == old then { b with group := newName } else b)
    let active := if st.activeGroup == old then newName else st.activeGroup
    { bookmarks := bms, groups := groups2, activeGroup := active }

/-- Embeds `bm.deleteGroup` (lines 579-613), after the user confirms: delete the
color entry, drop the group's bookmarks, and when the deleted group was
active fall back to the first remaining key or synthesize `Default` with
the first configured default color. -/
def deleteGroup (defaultColors : List String) (name : String) (st : St) : St :=
  if name.isEmpty then st
  else
    let groups2 := objDelete st.groups name
    let remaining := st.bookmarks.filter (fun b => b.group != name)
    if st.activeGroup == name then
      match objKeys groups2 with
      | [] =>
        { bookmarks := remaining
          groups := objSet groups2 "Default" defaultColors.head?
          activeGroup := "Default" }
      | k :: _ =>
        { bookmarks := remaining, groups := groups2, activeGroup := k }
    else
      { bookmarks := remaining, groups := groups2, activeGroup := st.activeGroup }

/-- Lexicographic comparison of code-point lists. -/
def charListLt : List Char → List Char → Bool
  | _, [] => false
  | [], _ :: _ => true
  | a :: as, b :: bs =>
    if a.toNat < b.toNat then true
    else if b.toNat < a.toNat then false
    else charListLt as bs

/-- Lexicographic string order on code points, used to embed `localeCompare`. -/
def strLt (a b : String) : Bool := charListLt a.data b.data

/-- The sort comparator of `bm.nextBookmark` / `bm.prevBookmark`
(lines 620-623): `localeCompare` on uris (embedded as lexicographic string
order), then `a.line - b.line`. -/
def bmCompare (a b : Bookmark) : Int :=
  if a.uri != b.uri then (if strLt a.uri b.uri then -1 else 1)
  else a.line - b.line

/-- Stable insertion of a bookmark after all comparator-⩽ elements,
matching the stability of `Array.prototype.sort`. -/
def insertBm (a : Bookmark) : List Bookmark → List Bookmark
  | [] => [a]
  | b :: t => if bmCompare b a ≤ 0 then b :: insertBm a t else a :: b :: t

/-- Stable sort by `bmCompare` (insertion sort). -/
def sortBms : List Bookmark → List Bookmark
  | [] => []
  | b :: t => insertBm b (sortBms t)

/-- The navigation working list: the active group's bookmarks sorted by
(uri, line). -/
def sortedActive (st : St) : List Bookmark :=
  sortBms (st.bookmarks.filter (fun b => b.group == st.activeGroup))

/-- Embeds `bm.nextBookmark` (lines 615-639): the bookmark the command reveals,
`none` when it returns without navigating. -/
def nextBookmark (curUri : String) (curLine : Int) (st : St) : Option Bookmark :=
  let all := sortedActive st
  if all.isEmpty then none
  else
    let idx := jsFindIndex (fun b => b.uri == curUri && b.line == curLine) all
    let idx2 := (idx + 1).tmod (all.length : Int)
    all.get? idx2.toNat

/-- Embeds `bm.prevBookmark` (lines 641-665): the bookmark the command reveals,
`none` when it returns without navigating. -/
def prevBookmark (curUri : String) (curLine : Int) (st : St) : Option Bookmark :=
  let all := sortedActive st
  if all.isEmpty then none
  else
    let idx := jsFindIndex (fun b => b.uri == curUri && b.line == curLine) all
    let idx2 := (idx - 1 + (all.length : Int)).tmod (all.length : Int)
    all.get? idx2.toNat

/-- One entry of `event.contentChanges`: the replaced range's start and
(inclusive) end lines and the replacement text. -/
structure Change where
  startLine : Int
  endLine : Int
  text : String
deriving DecidableEq, Repr

/-- Computes `delta = change.text.split("\n").length - (end.line - start.line + 1)`
(lines 695-697). -/
def lineDelta (c : Change) : Int :=
  let oldCount := c.endLine - c.startLine + 1
  let newCount := (c.text.splitOn "\n").length
  (newCount : Int) - oldCount

/-- The per-change body of the `onDidChangeTextDocument` handler
(lines 694-704): skip when `delta === 0`, else shift every bookmark of the
edited document strictly below the change start, clamping at line 0. -/
def applyChangeToBms (docUri : String) (c : Change) (bms : List Bookmark) :
    List Bookmark :=
  let delta := lineDelta c
  if delta == 0 then bms
  else
    bms.map (fun b =>
      if b.uri == docUri && c.startLine < b.line then
        { b with line := max 0 (b.line + delta) }
      else b)

/-- Embeds the `onDidChangeTextDocument` handler (lines 689-707): apply each
reported change in order. -/
def onDidChangeTextDocument (docUri : String) (changes : List Change)
    (bms : List Bookmark) : List Bookmark :=
  if changes.isEmpty then bms
  else changes.foldl (fun acc c => applyChangeToBms docUri c acc) bms

/-- Operations over which the key-uniqueness invariant is preserved. -/
inductive BmOp where
  | toggle (uri : String) (line : Int) (content : String)
  | remove (uri : String) (line : Int) (group : String)
  | deleteGrp (name : String)
deriving DecidableEq, Repr

/-- Run one operation on the state. -/
def applyOp (defaultColors : List String) (st : St) : BmOp → St
  | .toggle u l c => toggleBookmark defaultColors u l c st
  | .remove u l g => removeBookmark u l g st
  | .deleteGrp n => deleteGroup defaultColors n st

/-- Run a sequence of operations. -/
def applyOps (defaultColors : List String) (ops : List BmOp) (st : St) : St :=
  ops.foldl (applyOp defaultColors) st

/-! ## Helper lemmas -/

/-- Matching by `bmMatches` is exactly equality of identity keys. -/
theorem bmMatches_iff (b : Bookmark) (u : String) (l : Int) (g : String) :
    bmMatches b u l g = true ↔ bmKey b = (u, l, g) := by
  simp [bmMatches, bmKey, Prod.ext_iff, Bool.and_eq_true, beq_iff_eq, and_assoc]

/-- A negative `findIndex` result means no element matches. -/
theorem jsFindIndex_neg {p : α → Bool} {l : List α} (h : jsFindIndex p l < 0) :
    ∀ x ∈ l, p x = false := by
  induction l with
  | nil => simp
  | cons x t ih =>
    by_cases hx : p x = true
    · simp [jsFindIndex, hx] at h
    · simp only [Bool.not_eq_true] at hx
      intro y hy
      rcases List.mem_cons.mp hy with rfl | hyt
      · exact hx
      · refine ih ?_ y hyt
        simp only [jsFindIndex, hx, if_false] at h
        by_cases ht : jsFindIndex p t < 0
        · exact ht
        · exfalso; rw [if_neg ht] at h; omega

/-- If no element matches, `findIndex` returns `-1`. -/
theorem jsFindIndex_eq_neg_one {p : α → Bool} {l : List α}
    (h : ∀ x ∈ l, p x = false) : jsFindIndex p l = -1 := by
  induction l with
  | nil => rfl
  | cons x t ih =>
    have hx := h x (List.mem_cons_self x t)
    have ht : jsFindIndex p t = -1 := ih (fun y hy => h y (List.mem_cons_of_mem x hy))
    simp [jsFindIndex, hx, ht]

/-- When the left part has no match and `e` matches, `findIndex` over
`l ++ [e]` is the length of `l`. -/
theorem jsFindIndex_append_singleton {p : α → Bool} {l : List α} {e : α}
    (h : ∀ x ∈ l, p x = false) (he : p e = true) :
    jsFindIndex p (l ++ [e]) = (l.length : Int) := by
  induction l with
  | nil => simp [jsFindIndex, he]
  | cons x t ih =>
    have hx := h x (List.mem_cons_self x t)
    have ht := ih (fun y hy => h y (List.mem_cons_of_mem x hy))
    simp only [List.cons_append, jsFindIndex, hx, if_false, ht]
    have : ¬ ((t.length : Int) < 0) := by omega
    simp [this]
    omega

/-- Erasing at index `l.length` in `l ++ [e]` gives back `l`. -/
theorem bmList_eraseIdx_append {α : Type} (l : List α) (e : α) :
    (l ++ [e]).eraseIdx l.length = l := by
  induction l with
  | nil => rfl
  | cons x t ih => simp [List.eraseIdx, ih]

/-- Mapping a function that is the identity on the list is the identity. -/
theorem listMapId {α : Type} (l : List α) (f : α → α) (h : ∀ x ∈ l, f x = x) :
    l.map f = l := by
  induction l with
  | nil => rfl
  | cons x t ih =>
    simp only [List.map_cons, h x (List.mem_cons_self x t)]
    rw [ih (fun y hy => h y (List.mem_cons_of_mem x hy))]

/-- Unfolding lemma: reading from a cons cell. -/
theorem objGet_cons (e : String × Option String) (t : GroupMap) (k : String) :
    objGet (e :: t) k = if e.1 == k then e.2 else objGet t k := by
  simp only [objGet, List.find?]
  cases he : (e.1 == k) <;> simp [he]

/-- Unfolding lemma: key presence in a cons cell. -/
theorem objHasKey_cons (e : String × Option String) (t : GroupMap) (k : String) :
    objHasKey (e :: t) k = ((e.1 == k) || objHasKey t k) := by
  simp [objHasKey]

/-- Unfolding lemma: writing into a cons cell. -/
theorem objSet_cons (e : String × Option String) (t : GroupMap) (k : String)
    (v : Option String) :
    objSet (e :: t) k v =
      (if e.1 == k then (e.1, v) :: t.map (fun x => if x.1 == k then (x.1, v) else x)
       else e :: objSet t k v) := by
  by_cases he : (e.1 == k) = true
  · have hek : e.1 = k := by simpa using he
    have hk : objHasKey (e :: t) k = true := by simp [objHasKey_cons, he]
    simp [objSet, hk, he, hek]
  · have he2 : (e.1 == k) = false := by simpa using he
    have hek : ¬ e.1 = k := by simpa using he
    by_cases ht : objHasKey t k = true
    · have hk : objHasKey (e :: t) k = true := by simp [objHasKey_cons, ht]
      simp [objSet, hk, ht, he2, hek]
    · have ht2 : objHasKey t k = false := by simpa using ht
      have hk : objHasKey (e :: t) k = false := by simp [objHasKey_cons, he2, ht2]
      simp [objSet, hk, ht2, he2, hek]

/-- Reading back the key just written by `objSet`. -/
theorem objGet_objSet_self (m : GroupMap) (k : String) (v : Option String) :
    objGet (objSet m k v) k = v := by
  induction m with
  | nil => simp [objSet, objHasKey, objGet, List.find?]
  | cons e t ih =>
    rw [objSet_cons]
    by_cases he : (e.1 == k) = true
    · rw [if_pos he, objGet_cons]
      simp [he]
    · have he2 : (e.1 == k) = false := by simpa using he
      rw [if_neg he, objGet_cons, if_neg (by simp [he2]), ih]

/-- A key absent from the map reads as `none`. -/
theorem objGet_eq_none_of_hasKey_false {m : GroupMap} {k : String}
    (h : objHasKey m k = false) : objGet m k = none := by
  induction m with
  | nil => rfl
  | cons e t ih =>
    rw [objHasKey_cons, Bool.or_eq_false_iff] at h
    rw [objGet_cons, if_neg (by simp [h.1]), ih h.2]

/-- Deleting an absent key leaves the map unchanged. -/
theorem objDelete_of_hasKey_false {m : GroupMap} {k : String}
    (h : objHasKey m k = false) : objDelete m k = m := by
  induction m with
  | nil => rfl
  | cons e t ih =>
    rw [objHasKey_cons, Bool.or_eq_false_iff] at h
    simp only [objDelete, List.filter]
    rw [show (e.1 != k) = true by simp [bne, h.1]]
    have := ih h.2
    simp only [objDelete] at this
    rw [this]

/-- Writing an absent key appends the entry. -/
theorem objSet_of_hasKey_false {m : GroupMap} {k : String} {v : Option String}
    (h : objHasKey m k = false) : objSet m k v = m ++ [(k, v)] := by
  simp [objSet, h]

/-! ## Claim theorems -/

/-- C4: next/previous navigation orders the active group's bookmarks with
primary key the file uri (lexicographic) and secondary key the line number,
and wraps around. With active-group bookmarks sorting to
[(fileA,3), (fileA,9), (fileB,1)] (given here out of order to exercise the
comparator), next from (fileB,1) is (fileA,3) and prev from (fileA,3) is
(fileB,1). -/
theorem navigator_wraparound_example :
    sortedActive ⟨[⟨"fileB", 1, "c", "G"⟩, ⟨"fileA", 9, "b", "G"⟩,
        ⟨"fileA", 3, "a", "G"⟩], [("G", some "#fff59d")], "G"⟩ =
      [⟨"fileA", 3, "a", "G"⟩, ⟨"fileA", 9, "b", "G"⟩, ⟨"fileB", 1, "c", "G"⟩] ∧
    nextBookmark "fileB" 1 ⟨[⟨"fileB", 1, "c", "G"⟩, ⟨"fileA", 9, "b", "G"⟩,
        ⟨"fileA", 3, "a", "G"⟩], [("G", some "#fff59d")], "G"⟩ =
      some ⟨"fileA", 3, "a", "G"⟩ ∧
    prevBookmark "fileA" 3 ⟨[⟨"fileB", 1, "c", "G"⟩, ⟨"fileA", 9, "b", "G"⟩,
        ⟨"fileA", 3, "a", "G"⟩], [("G", some "#fff59d")], "G"⟩ =
      some ⟨"fileB", 1, "c", "G"⟩ := by
  refine ⟨?_, ?_, ?_⟩ <;> decide

/-- C1 counterexample: starting from an empty bookmark list, toggle a line in
group A, create group B (making it active), toggle the same line in group B,
then move the group-A bookmark to group B. The resulting list holds two
bookmarks with the same (uri, line, group) key, so the uniqueness invariant
is not preserved by move-to-group. -/
theorem moveToGroup_breaks_key_uniqueness :
    ¬ (keysOf (moveBookmarkToGroup "f" 0 "A" "B"
        (toggleBookmark ["#fff59d"] "f" 0 "c"
          (createGroup "B" "#bbb"
            (toggleBookmark ["#fff59d"] "f" 0 "c"
              ⟨[], [("A", some "#aaa")], "A"⟩)))).bookmarks).Nodup := by
  decide

/-- C3 counterexample: with a stored bookmark whose snapshot content is
"old", toggling twice at the same key with content "new" yields the list
[(f,0,"new",G)], which is not a permutation of the prior list
[(f,0,"old",G)]: the double toggle does not restore the prior set. -/
theorem toggle_twice_content_mismatch :
    ¬ ((toggleBookmark ["#d"] "f" 0 "new"
          (toggleBookmark ["#d"] "f" 0 "new"
            ⟨[⟨"f", 0, "old", "G"⟩], [("G", some "#1")], "G"⟩)).bookmarks).Perm
        [⟨"f", 0, "old", "G"⟩] := by
  decide

/-- C5 counterexample: with the active group's sorted bookmarks
[(A,0), (A,5)] and the cursor at the unbookmarked line (A,3) (the match
index is -1), prev navigates to (A,0), the first bookmark, not to the last
bookmark (A,5) as the claim states. -/
theorem prev_fallback_not_last :
    prevBookmark "A" 3
        ⟨[⟨"A", 0, "x", "G"⟩, ⟨"A", 5, "y", "G"⟩], [("G", some "#1")], "G"⟩ =
      some ⟨"A", 0, "x", "G"⟩ ∧
    (sortedActive
        ⟨[⟨"A", 0, "x", "G"⟩, ⟨"A", 5, "y", "G"⟩], [("G", some "#1")], "G"⟩).getLast? =
      some ⟨"A", 5, "y", "G"⟩ ∧
    jsFindIndex (fun b => b.uri == "A" && b.line == 3)
      (sortedActive
        ⟨[⟨"A", 0, "x", "G"⟩, ⟨"A", 5, "y", "G"⟩], [("G", some "#1")], "G"⟩) = -1 := by
  refine ⟨?_, ?_, ?_⟩ <;> decide

/-- C8 counterexample: renaming a non-existent group "B" to "C" does not
fail and leave the state untouched; the handler proceeds and mutates the
group map (it gains a "C" key with an undefined color). -/
theorem renameGroup_missing_old_mutates :
    renameGroup "B" "C" ⟨[], [("A", some "#fff59d")], "A"⟩ ≠
      ⟨[], [("A", some "#fff59d")], "A"⟩ := by
  decide

/-- Non-empty strings have a false `isEmpty` flag. -/
theorem isEmpty_false_of_ne {s : String} (h : s ≠ "") : s.isEmpty = false := by
  cases he : s.isEmpty
  · rfl
  · exact absurd (by simpa [String.isEmpty_iff] using he) h

/-- C10: a successful createGroup (non-empty fresh name) appends the
(name, color) entry to the group map and, even though the active group was
valid before the call, redirects the active-group pointer to the new group;
the bookmark list is untouched. -/
theorem createGroup_sets_active_spec (name color : String) (st : St)
    (hname : name ≠ "") (habs : objHasKey st.groups name = false)
    (hvalid : jsTruthy (objGet st.groups st.activeGroup) = true) :
    (createGroup name color st).groups = st.groups ++ [(name, some color)] ∧
    (createGroup name color st).activeGroup = name ∧
    (createGroup name color st).bookmarks = st.bookmarks := by
  have hne := isEmpty_false_of_ne hname
  have hget := objGet_eq_none_of_hasKey_false habs
  refine ⟨?_, ?_, ?_⟩ <;>
    simp [createGroup, hne, hget, jsTruthy, objSet_of_hasKey_false habs]

/-- C10 witness. -/
theorem createGroup_sets_active_spec_witness :
    (createGroup "B" "#bbb" ⟨[], [("A", some "#aaa")], "A"⟩).groups =
        [("A", some "#aaa")] ++ [("B", some "#bbb")] ∧
    (createGroup "B" "#bbb" ⟨[], [("A", some "#aaa")], "A"⟩).activeGroup = "B" ∧
    (createGroup "B" "#bbb" ⟨[], [("A", some "#aaa")], "A"⟩).bookmarks = [] :=
  createGroup_sets_active_spec "B" "#bbb" ⟨[], [("A", some "#aaa")], "A"⟩
    (by decide) (by decide) (by decide)

/-- C9: deleting the only existing group (necessarily the active one, as the
active pointer references an existing group) leaves a group map with exactly
one entry, "Default", colored with the first configured default color, and
"Default" as the active group. -/
theorem delete_only_group_default (d : String) (rest : List String)
    (g c : String) (st : St) (hg : g ≠ "")
    (hgroups : st.groups = [(g, some c)]) (hactive : st.activeGroup = g) :
    (deleteGroup (d :: rest) g st).groups = [("Default", some d)] ∧
    (deleteGroup (d :: rest) g st).activeGroup = "Default" := by
  have hne := isEmpty_false_of_ne hg
  constructor <;>
    simp [deleteGroup, hne, hgroups, hactive, objDelete, objKeys, objSet,
      objHasKey, List.filter]

/-- C9 witness. -/
theorem delete_only_group_default_witness :
    (deleteGroup ["#fff59d"] "G"
        ⟨[⟨"f", 1, "x", "G"⟩], [("G", some "#1")], "G"⟩).groups =
      [("Default", some "#fff59d")] ∧
    (deleteGroup ["#fff59d"] "G"
        ⟨[⟨"f", 1, "x", "G"⟩], [("G", some "#1")], "G"⟩).activeGroup = "Default" :=
  delete_only_group_default "#fff59d" [] "G" "#1"
    ⟨[⟨"f", 1, "x", "G"⟩], [("G", some "#1")], "G"⟩ (by decide) rfl rfl

/-- C7: a rename that takes the success path (non-empty old and new, new
different from old and not an existing truthy group entry) retargets exactly
the bookmarks whose group is old to new, maps new to the color old was
mapped to, and updates the active-group pointer exactly when it pointed at
old. -/
theorem renameGroup_cascade_spec (old newName : String) (st : St)
    (hold : old ≠ "") (hnew : newName ≠ "") (hne : newName ≠ old)
    (hnotex : jsTruthy (objGet st.groups newName) = false) :
    (renameGroup old newName st).bookmarks =
      st.bookmarks.map (fun b =>
        if b.group == old then { b with group := newName } else b) ∧
    objGet (renameGroup old newName st).groups newName = objGet st.groups old ∧
    (st.activeGroup = old → (renameGroup old newName st).activeGroup = newName) ∧
    (st.activeGroup ≠ old →
      (renameGroup old newName st).activeGroup = st.activeGroup) := by
  have h1 := isEmpty_false_of_ne hold
  have h2 := isEmpty_false_of_ne hnew
  have h3 : (newName == old) = false := by simp [hne]
  refine ⟨?_, ?_, ?_, ?_⟩
  · simp [renameGroup, h1, h2, h3, hnotex]
  · simp [renameGroup, h1, h2, h3, hnotex, objGet_objSet_self]
  · intro ha; simp [renameGroup, h1, h2, h3, hnotex, ha]
  · intro ha; simp [renameGroup, h1, h2, h3, hnotex, ha]

/-- C7 witness. -/
theorem renameGroup_cascade_spec_witness :
    (renameGroup "A" "B"
        ⟨[⟨"f", 1, "x", "A"⟩, ⟨"f", 2, "y", "C"⟩],
          [("A", some "#a"), ("C", some "#c")], "A"⟩).bookmarks =
      ([⟨"f", 1, "x", "A"⟩, ⟨"f", 2, "y", "C"⟩] : List Bookmark).map (fun b =>
        if b.group == "A" then { b with group := "B" } else b) ∧
    objGet (renameGroup "A" "B"
        ⟨[⟨"f", 1, "x", "A"⟩, ⟨"f", 2, "y", "C"⟩],
          [("A", some "#a"), ("C", some "#c")], "A"⟩).groups "B" =
      objGet [("A", some "#a"), ("C", some "#c")] "A" ∧
    (renameGroup "A" "B"
        ⟨[⟨"f", 1, "x", "A"⟩, ⟨"f", 2, "y", "C"⟩],
          [("A", some "#a"), ("C", some "#c")], "A"⟩).activeGroup = "B" :=
  have h := renameGroup_cascade_spec "A" "B"
    ⟨[⟨"f", 1, "x", "A"⟩, ⟨"f", 2, "y", "C"⟩],
      [("A", some "#a"), ("C", some "#c")], "A"⟩
    (by decide) (by decide) (by decide) (by decide)
  ⟨h.1, h.2.1, h.2.2.1 rfl⟩

/-- C8 (amended): the AlreadyExists failure is real and mutation-free: when
new is a truthy entry of the group map the whole state is returned
untouched. But there is no NotFound failure for a missing old group: when
old is absent (and new absent, both non-empty and distinct) the handler
proceeds, leaving the existing entries as they are and appending an entry
for new holding the undefined color read from the missing old key, and
still retargets the active-group pointer when it pointed at old. -/
theorem renameGroup_failure_spec (old newName : String) (st : St) :
    (jsTruthy (objGet st.groups newName) = true →
      renameGroup old newName st = st) ∧
    (old ≠ "" → newName ≠ "" → newName ≠ old →
      objHasKey st.groups old = false → objHasKey st.groups newName = false →
      (renameGroup old newName st).groups = st.groups ++ [(newName, none)] ∧
      (renameGroup old newName st).activeGroup =
        (if st.activeGroup = old then newName else st.activeGroup)) := by
  constructor
  · intro h
    simp [renameGroup, h]
  · intro h1 h2 h3 h4 h5
    have hng := objGet_eq_none_of_hasKey_false h5
    have htr : jsTruthy (objGet st.groups newName) = false := by
      rw [hng]; rfl
    have holdn := objGet_eq_none_of_hasKey_false h4
    have hdel := objDelete_of_hasKey_false h4
    have he1 := isEmpty_false_of_ne h1
    have he2 := isEmpty_false_of_ne h2
    have h3b : (newName == old) = false := by simp [h3]
    constructor
    · simp [renameGroup, he1, he2, h3b, htr, hdel, holdn,
        objSet_of_hasKey_false h5]
    · by_cases hao : st.activeGroup = old <;>
        simp [renameGroup, he1, he2, h3b, htr, hao]

/-- C8 witness: one state exercising the mutation-free AlreadyExists exit,
and one exercising the missing-old success path. -/
theorem renameGroup_failure_spec_witness :
    renameGroup "A" "B" ⟨[], [("A", some "#a"), ("B", some "#b")], "A"⟩ =
      ⟨[], [("A", some "#a"), ("B", some "#b")], "A"⟩ ∧
    (renameGroup "X" "C" ⟨[], [("A", some "#a")], "X"⟩).groups =
      [("A", some "#a")] ++ [("C", none)] ∧
    (renameGroup "X" "C" ⟨[], [("A", some "#a")], "X"⟩).activeGroup =
      (if ("X" : String) = "X" then "C" else "X") :=
  have h2 := (renameGroup_failure_spec "X" "C" ⟨[], [("A", some "#a")], "X"⟩).2
    (by decide) (by decide) (by decide) (by decide) (by decide)
  ⟨(renameGroup_failure_spec "A" "B"
      ⟨[], [("A", some "#a"), ("B", some "#b")], "A"⟩).1 (by decide),
    h2.1, h2.2⟩

/-- C6: deleting a (non-empty-named) group keeps exactly the bookmarks of
other groups: a bookmark survives iff it was there before and is not owned
by the deleted group. When the deleted group was active, the new active
group is the first remaining key of the group map (in insertion order), or
"Default" when none remain; otherwise the active group is unchanged. -/
theorem deleteGroup_cascade_spec (dc : List String) (name : String) (st : St)
    (hname : name ≠ "") :
    (∀ b : Bookmark, b ∈ (deleteGroup dc name st).bookmarks ↔
        (b ∈ st.bookmarks ∧ b.group ≠ name)) ∧
    (st.activeGroup = name →
      (deleteGroup dc name st).activeGroup =
        (match objKeys (objDelete st.groups name) with
          | [] => "Default"
          | k :: _ => k)) ∧
    (st.activeGroup ≠ name →
      (deleteGroup dc name st).activeGroup = st.activeGroup) := by
  have hne := isEmpty_false_of_ne hname
  refine ⟨?_, ?_, ?_⟩
  · intro b
    by_cases ha : st.activeGroup = name
    · cases hk : objKeys (objDelete st.groups name) <;>
        simp [deleteGroup, hne, ha, hk, List.mem_filter, bne_iff_ne]
    · simp [deleteGroup, hne, ha, List.mem_filter, bne_iff_ne]
  · intro ha
    cases hk : objKeys (objDelete st.groups name) <;>
      simp [deleteGroup, hne, ha, hk]
  · intro ha
    simp [deleteGroup, hne, ha]

/-- C6 witness: a bookmark of another group survives the deletion, and the
active group falls back to the first remaining key. -/
theorem deleteGroup_cascade_spec_witness :
    ((⟨"f", 2, "y", "Work"⟩ : Bookmark) ∈ (deleteGroup ["#fff59d"] "Tests"
        ⟨[⟨"f", 1, "x", "Tests"⟩, ⟨"f", 2, "y", "Work"⟩, ⟨"g", 3, "z", "Tests"⟩,
          ⟨"g", 9, "w", "Tests"⟩],
          [("Tests", some "#t"), ("Work", some "#w")], "Tests"⟩).bookmarks ↔
      ((⟨"f", 2, "y", "Work"⟩ : Bookmark) ∈
        ([⟨"f", 1, "x", "Tests"⟩, ⟨"f", 2, "y", "Work"⟩, ⟨"g", 3, "z", "Tests"⟩,
          ⟨"g", 9, "w", "Tests"⟩] : List Bookmark) ∧
        (⟨"f", 2, "y", "Work"⟩ : Bookmark).group ≠ "Tests")) ∧
    (deleteGroup ["#fff59d"] "Tests"
        ⟨[⟨"f", 1, "x", "Tests"⟩, ⟨"f", 2, "y", "Work"⟩, ⟨"g", 3, "z", "Tests"⟩,
          ⟨"g", 9, "w", "Tests"⟩],
          [("Tests", some "#t"), ("Work", some "#w")], "Tests"⟩).activeGroup =
      (match objKeys (objDelete
          [("Tests", some "#t"), ("Work", some "#w")] "Tests") with
        | [] => "Default"
        | k :: _ => k) :=
  have h := deleteGroup_cascade_spec ["#fff59d"] "Tests"
    ⟨[⟨"f", 1, "x", "Tests"⟩, ⟨"f", 2, "y", "Work"⟩, ⟨"g", 3, "z", "Tests"⟩,
      ⟨"g", 9, "w", "Tests"⟩],
      [("Tests", some "#t"), ("Work", some "#w")], "Tests"⟩ (by decide)
  ⟨h.1 ⟨"f", 2, "y", "Work"⟩, h.2.1 rfl⟩

/-- C2: a single reported content change shifts exactly the bookmarks of the
edited document that lie strictly below the change's start line, by
delta = (newline-separated segments of the replacement) - (lines spanned by
the replaced range), clamping at line 0; bookmarks at or above the start
line and bookmarks of other documents are unchanged. -/
theorem applyEditDelta_shifts_lines (docUri : String) (c : Change)
    (bms : List Bookmark) (h : ∀ b ∈ bms, 0 ≤ b.line) :
    onDidChangeTextDocument docUri [c] bms = bms.map (fun b =>
      if b.uri == docUri && c.startLine < b.line then
        { b with line := max 0 (b.line + lineDelta c) }
      else b) := by
  have hstep : onDidChangeTextDocument docUri [c] bms =
      applyChangeToBms docUri c bms := by
    simp [onDidChangeTextDocument]
  rw [hstep]
  by_cases hd : lineDelta c = 0
  · have hz : applyChangeToBms docUri c bms = bms := by
      simp [applyChangeToBms, hd]
    rw [hz]
    symm
    apply listMapId
    intro b hb
    have hb0 := h b hb
    by_cases hc : (b.uri == docUri && decide (c.startLine < b.line)) = true
    · rw [if_pos hc, hd, add_zero, max_eq_right hb0]
    · rw [if_neg hc]
  · have hz : (lineDelta c == 0) = false := by simp [hd]
    simp [applyChangeToBms, hz]

/-- C2 witness, on the spec's own example: bookmarks at lines [5, 10, 20]
and an insertion of three lines at line 7. -/
theorem applyEditDelta_shifts_lines_witness :
    onDidChangeTextDocument "F" [⟨7, 7, "a\nb\nc\nd"⟩]
        [⟨"F", 5, "x", "G"⟩, ⟨"F", 10, "y", "G"⟩, ⟨"F", 20, "z", "G"⟩] =
      ([⟨"F", 5, "x", "G"⟩, ⟨"F", 10, "y", "G"⟩, ⟨"F", 20, "z", "G"⟩] :
        List Bookmark).map (fun b =>
          if b.uri == "F" && (⟨7, 7, "a\nb\nc\nd"⟩ : Change).startLine < b.line then
            { b with line := max 0 (b.line + lineDelta ⟨7, 7, "a\nb\nc\nd"⟩) }
          else b) :=
  applyEditDelta_shifts_lines "F" ⟨7, 7, "a\nb\nc\nd"⟩
    [⟨"F", 5, "x", "G"⟩, ⟨"F", 10, "y", "G"⟩, ⟨"F", 20, "z", "G"⟩] (by decide)

/-- Keys of a list with one index erased form a sublist of the keys. -/
theorem keysOf_eraseIdx_sublist (bms : List Bookmark) (n : Nat) :
    (keysOf (bms.eraseIdx n)).Sublist (keysOf bms) :=
  (List.eraseIdx_sublist bms n).map bmKey

/-- Keys of a filtered list form a sublist of the keys. -/
theorem keysOf_filter_sublist (bms : List Bookmark) (p : Bookmark → Bool) :
    (keysOf (bms.filter p)).Sublist (keysOf bms) :=
  (List.filter_sublist bms).map bmKey

/-- The toggle core preserves key uniqueness: it either erases a bookmark or
appends one whose key was absent. -/
theorem keys_nodup_toggleCore (u : String) (l : Int) (c g : String)
    (bms : List Bookmark) (h : (keysOf bms).Nodup) :
    (keysOf (toggleCore u l c g bms)).Nodup := by
  unfold toggleCore
  by_cases hi : 0 ≤ jsFindIndex (fun b => bmMatches b u l g) bms
  · rw [if_pos hi]
    exact h.sublist (keysOf_eraseIdx_sublist bms _)
  · rw [if_neg hi]
    have hall : ∀ x ∈ bms, bmMatches x u l g = false :=
      jsFindIndex_neg (by omega)
    have hnotin : (u, l, g) ∉ keysOf bms := by
      intro hmem
      rcases List.mem_map.mp hmem with ⟨b, hb, hkey⟩
      have hmatch := (bmMatches_iff b u l g).mpr hkey
      rw [hall b hb] at hmatch
      cases hmatch
    have hrw : keysOf (bms ++ [⟨u, l, c, g⟩]) = keysOf bms ++ [(u, l, g)] := by
      simp [keysOf, bmKey]
    rw [hrw]
    rw [List.nodup_append]
    refine ⟨h, List.nodup_singleton _, ?_⟩
    intro x hx hxe
    rw [List.mem_singleton] at hxe
    subst hxe
    exact hnotin hx

/-- The toggle command preserves key uniqueness of the bookmark list. -/
theorem keys_nodup_toggleBookmark (dc : List String) (u : String) (l : Int)
    (c : String) (st : St) (h : (keysOf st.bookmarks).Nodup) :
    (keysOf (toggleBookmark dc u l c st).bookmarks).Nodup :=
  keys_nodup_toggleCore u l c (toggleBookmark dc u l c st).activeGroup
    st.bookmarks h

/-- The remove command preserves key uniqueness of the bookmark list. -/
theorem keys_nodup_removeBookmark (u : String) (l : Int) (g : String) (st : St)
    (h : (keysOf st.bookmarks).Nodup) :
    (keysOf (removeBookmark u l g st).bookmarks).Nodup := by
  unfold removeBookmark
  by_cases hi : 0 ≤ jsFindIndex (fun b => bmMatches b u l g) st.bookmarks
  · rw [if_pos hi]
    exact h.sublist (keysOf_eraseIdx_sublist st.bookmarks _)
  · rw [if_neg hi]
    exact h

/-- The delete-group command preserves key uniqueness of the bookmark list. -/
theorem keys_nodup_deleteGroup (dc : List String) (n : String) (st : St)
    (h : (keysOf st.bookmarks).Nodup) :
    (keysOf (deleteGroup dc n st).bookmarks).Nodup := by
  by_cases hn : n.isEmpty = true
  · simpa [deleteGroup, hn] using h
  · by_cases ha : (st.activeGroup == n) = true
    · cases hk : objKeys (objDelete st.groups n) <;>
        · simp only [deleteGroup, hn, ha, hk, if_false, if_true, Bool.false_eq_true]
          exact h.sublist (keysOf_filter_sublist st.bookmarks _)
    · simp only [deleteGroup, hn, ha, if_false, Bool.false_eq_true]
      exact h.sublist (keysOf_filter_sublist st.bookmarks _)

/-- C1 (amended): starting from a bookmark list with pairwise distinct
(uri, line, group) keys, any sequence of toggle, remove and delete-group
operations keeps the keys pairwise distinct, i.e. at most one bookmark per
key. (Move-to-group and edit-delta application are excluded: they can
create duplicate keys, see the counterexample.) -/
theorem key_uniqueness_preserved (dc : List String) (ops : List BmOp) (st : St)
    (h : (keysOf st.bookmarks).Nodup) :
    (keysOf (applyOps dc ops st).bookmarks).Nodup := by
  induction ops generalizing st with
  | nil => exact h
  | cons op rest ih =>
    have h1 : (keysOf (applyOp dc st op).bookmarks).Nodup := by
      cases op with
      | toggle u l c => exact keys_nodup_toggleBookmark dc u l c st h
      | remove u l g => exact keys_nodup_removeBookmark u l g st h
      | deleteGrp n => exact keys_nodup_deleteGroup dc n st h
    exact ih (applyOp dc st op) h1

/-- C1 witness: a concrete mixed operation sequence from a duplicate-free
start state. -/
theorem key_uniqueness_preserved_witness :
    (keysOf (⟨[], [("A", some "#a")], "A"⟩ : St).bookmarks).Nodup ∧
    (keysOf (applyOps ["#fff59d"]
        [.toggle "f" 0 "c", .toggle "g" 3 "d", .remove "f" 0 "A",
          .deleteGrp "A"]
        ⟨[], [("A", some "#a")], "A"⟩).bookmarks).Nodup :=
  ⟨by decide,
    key_uniqueness_preserved ["#fff59d"]
      [.toggle "f" 0 "c", .toggle "g" 3 "d", .remove "f" 0 "A",
        .deleteGrp "A"]
      ⟨[], [("A", some "#a")], "A"⟩ (by decide)⟩

/-- Toggling past a non-matching head leaves the head in place. -/
theorem toggleCore_cons_not (u : String) (l : Int) (c g : String)
    (b : Bookmark) (t : List Bookmark) (hp : bmMatches b u l g = false) :
    toggleCore u l c g (b :: t) = b :: toggleCore u l c g t := by
  unfold toggleCore
  simp only [jsFindIndex, hp, Bool.false_eq_true, if_false]
  by_cases hr : jsFindIndex (fun x => bmMatches x u l g) t < 0
  · rw [if_pos hr, if_neg (by omega), if_neg (by omega)]
    rfl
  · rw [if_neg hr, if_pos (by omega), if_pos (by omega)]
    have hto : ((jsFindIndex (fun x => bmMatches x u l g) t) + 1).toNat =
        (jsFindIndex (fun x => bmMatches x u l g) t).toNat + 1 := by omega
    rw [hto]
    rfl

/-- Double application of the toggle core is a permutation of the original
list, provided every bookmark matching the toggled key equals the record
the toggle would insert and at most one such match exists. -/
theorem toggleCore_twice_perm (u : String) (l : Int) (c g : String)
    (bms : List Bookmark)
    (huniq : (bms.filter (fun b => bmMatches b u l g)).length ≤ 1)
    (hcontent : ∀ b ∈ bms, bmMatches b u l g = true → b = ⟨u, l, c, g⟩) :
    (toggleCore u l c g (toggleCore u l c g bms)).Perm bms := by
  have he : bmMatches (⟨u, l, c, g⟩ : Bookmark) u l g = true := by
    simp [bmMatches]
  induction bms with
  | nil =>
    have h1 : toggleCore u l c g [] = [⟨u, l, c, g⟩] := rfl
    have h2 : toggleCore u l c g [⟨u, l, c, g⟩] = [] := by
      unfold toggleCore
      simp [jsFindIndex, he]
    rw [h1, h2]
  | cons b t ih =>
    by_cases hp : bmMatches b u l g = true
    · have hb : b = ⟨u, l, c, g⟩ := hcontent b (List.mem_cons_self b t) hp
      have h1 : toggleCore u l c g (b :: t) = t := by
        unfold toggleCore
        simp [jsFindIndex, hp]
      have hfil : ((b :: t).filter (fun x => bmMatches x u l g)) =
          b :: t.filter (fun x => bmMatches x u l g) := by
        simp [List.filter, hp]
      rw [hfil] at huniq
      have hlen : (t.filter (fun x => bmMatches x u l g)).length = 0 := by
        simp only [List.length_cons] at huniq
        omega
      have htall : ∀ x ∈ t, bmMatches x u l g = false := by
        intro x hx
        by_contra hc
        simp only [Bool.not_eq_false] at hc
        have : x ∈ t.filter (fun x => bmMatches x u l g) :=
          List.mem_filter.mpr ⟨hx, hc⟩
        rw [List.length_eq_zero.mp hlen] at this
        cases this
      have h2 : toggleCore u l c g t = t ++ [⟨u, l, c, g⟩] := by
        unfold toggleCore
        rw [jsFindIndex_eq_neg_one htall]
        norm_num
      rw [h1, h2, hb]
      exact List.perm_append_singleton _ _
    · have hp2 : bmMatches b u l g = false := by simpa using hp
      rw [toggleCore_cons_not u l c g b t hp2,
        toggleCore_cons_not u l c g b _ hp2]
      refine List.Perm.cons b (ih ?_ ?_)
      · have : ((b :: t).filter (fun x => bmMatches x u l g)) =
            t.filter (fun x => bmMatches x u l g) := by
          simp [List.filter, hp2]
        rw [this] at huniq
        exact huniq
      · intro x hx hm
        exact hcontent x (List.mem_cons_of_mem b hx) hm

/-- C3 (amended): when the active group is valid and every stored bookmark
matching the key (f, l, active) is exactly the record the toggle inserts
(same snapshot content) with at most one such match, toggling twice in
immediate succession restores the prior bookmark set up to permutation (a
matched bookmark is re-inserted at the end of the list). Without the
content proviso the claim fails, see the counterexample. -/
theorem toggle_toggle_restores (dc : List String) (u : String) (l : Int)
    (c : String) (st : St)
    (hvalid : jsTruthy (objGet st.groups st.activeGroup) = true)
    (huniq : (st.bookmarks.filter
        (fun b => bmMatches b u l st.activeGroup)).length ≤ 1)
    (hcontent : ∀ b ∈ st.bookmarks, bmMatches b u l st.activeGroup = true →
      b = ⟨u, l, c, st.activeGroup⟩) :
    ((toggleBookmark dc u l c (toggleBookmark dc u l c st)).bookmarks).Perm
      st.bookmarks := by
  have h1 : toggleBookmark dc u l c st =
      ⟨toggleCore u l c st.activeGroup st.bookmarks, st.groups,
        st.activeGroup⟩ := by
    simp [toggleBookmark, hvalid]
  rw [h1]
  have h2 : toggleBookmark dc u l c
      (⟨toggleCore u l c st.activeGroup st.bookmarks, st.groups,
        st.activeGroup⟩ : St) =
      ⟨toggleCore u l c st.activeGroup
        (toggleCore u l c st.activeGroup st.bookmarks), st.groups,
        st.activeGroup⟩ := by
    simp [toggleBookmark, hvalid]
  rw [h2]
  exact toggleCore_twice_perm u l c st.activeGroup st.bookmarks huniq hcontent

/-- C3 witness: one stored bookmark, equal to the toggled record. -/
theorem toggle_toggle_restores_witness :
    ((toggleBookmark ["#d"] "f" 0 "c"
        (toggleBookmark ["#d"] "f" 0 "c"
          ⟨[⟨"f", 0, "c", "G"⟩], [("G", some "#1")], "G"⟩)).bookmarks).Perm
      [⟨"f", 0, "c", "G"⟩] :=
  toggle_toggle_restores ["#d"] "f" 0 "c"
    ⟨[⟨"f", 0, "c", "G"⟩], [("G", some "#1")], "G"⟩
    (by decide) (by decide) (by decide)

/-- C5 (amended): when the cursor position matches no bookmark of the
non-empty active group (the findIndex result is -1), next falls back to the
first bookmark of the sorted order; prev falls back to the bookmark at
index (n - 2) mod n, that is the second-to-last bookmark when n ≥ 2 — not
the last one, as claimed — and the sole bookmark when n = 1. -/
theorem nav_fallback_spec (cu : String) (cl : Int) (st : St)
    (hne : sortedActive st ≠ [])
    (hmiss : jsFindIndex (fun b => b.uri == cu && b.line == cl)
      (sortedActive st) = -1) :
    nextBookmark cu cl st = (sortedActive st).head? ∧
    (2 ≤ (sortedActive st).length →
      prevBookmark cu cl st =
        (sortedActive st).get? ((sortedActive st).length - 2)) ∧
    ((sortedActive st).length = 1 →
      prevBookmark cu cl st = (sortedActive st).head?) := by
  have hie : (sortedActive st).isEmpty = false := by
    cases hs : sortedActive st
    · exact absurd hs hne
    · rfl
  refine ⟨?_, ?_, ?_⟩
  · unfold nextBookmark
    simp only [hie, hmiss, Bool.false_eq_true, if_false]
    norm_num
    cases sortedActive st <;> simp
  · intro hlen
    unfold prevBookmark
    simp only [hie, hmiss, Bool.false_eq_true, if_false]
    have harith : (-1 - 1 + ((sortedActive st).length : Int)).tmod
        ((sortedActive st).length : Int) =
        ((sortedActive st).length : Int) - 2 := by
      rw [Int.tmod_eq_emod (by omega) (by omega),
        Int.emod_eq_of_lt (by omega) (by omega)]
      omega
    rw [harith]
    congr 1
    omega
  · intro hlen
    unfold prevBookmark
    simp only [hie, hmiss, Bool.false_eq_true, if_false, hlen]
    norm_num
    cases sortedActive st <;> simp

/-- C5 witness: three sorted bookmarks, cursor on none of them; next goes
to the first, prev goes to the second-to-last. -/
theorem nav_fallback_spec_witness :
    nextBookmark "A" 3 ⟨[⟨"A", 0, "x", "G"⟩, ⟨"A", 5, "y", "G"⟩, ⟨"A", 9, "z", "G"⟩],
        [("G", some "#1")], "G"⟩ =
      (sortedActive ⟨[⟨"A", 0, "x", "G"⟩, ⟨"A", 5, "y", "G"⟩, ⟨"A", 9, "z", "G"⟩],
        [("G", some "#1")], "G"⟩).head? ∧
    prevBookmark "A" 3 ⟨[⟨"A", 0, "x", "G"⟩, ⟨"A", 5, "y", "G"⟩, ⟨"A", 9, "z", "G"⟩],
        [("G", some "#1")], "G"⟩ =
      (sortedActive ⟨[⟨"A", 0, "x", "G"⟩, ⟨"A", 5, "y", "G"⟩, ⟨"A", 9, "z", "G"⟩],
        [("G", some "#1")], "G"⟩).get?
        ((sortedActive ⟨[⟨"A", 0, "x", "G"⟩, ⟨"A", 5, "y", "G"⟩, ⟨"A", 9, "z", "G"⟩],
          [("G", some "#1")], "G"⟩).length - 2) :=
  have h := nav_fallback_spec "A" 3
    ⟨[⟨"A", 0, "x", "G"⟩, ⟨"A", 5, "y", "G"⟩, ⟨"A", 9, "z", "G"⟩],
      [("G", some "#1")], "G"⟩ (by decide) (by decide)
  ⟨h.1, h.2.1 (by decide)⟩
